import Mathlib

set_option maxRecDepth 4000

/-!
Verification development for the GOG installer update checker
(`main.py` and `gog_installer_update_checker.py`, two near-duplicate
implementations of the same engine).

The Python code is shallowly embedded: strings are `String`/`List Char`,
Python `None` is `Option.none`, dictionaries are association lists, and the
remote catalog / HTTP layer is an explicit oracle parameter.  Python regular
expressions appearing in the code are modelled by hand-written character-list
functions whose doc comments state the regex they implement.
-/

/-- The character set CPython's `str.isspace`/`str.strip()` and `re`'s `\s`
(for `str` patterns) recognise as whitespace. -/
def isPySpace (c : Char) : Bool :=
  (0x09 ≤ c.toNat && c.toNat ≤ 0x0d) || c.toNat == 0x20 ||
  (0x1c ≤ c.toNat && c.toNat ≤ 0x1f) || c.toNat == 0x85 || c.toNat == 0xa0 ||
  c.toNat == 0x1680 || (0x2000 ≤ c.toNat && c.toNat ≤ 0x200a) ||
  c.toNat == 0x2028 || c.toNat == 0x2029 || c.toNat == 0x202f ||
  c.toNat == 0x205f || c.toNat == 0x3000

/-- Python `s.strip()`: remove leading and trailing whitespace. -/
def pyStrip (l : List Char) : List Char :=
  ((l.dropWhile isPySpace).reverse.dropWhile isPySpace).reverse

/-- Python `s.split()` (no separator): split on runs of whitespace, dropping
empty parts.  Implemented by a right fold carrying the finished words and the
word currently being assembled. -/
def pySplit (l : List Char) : List (List Char) :=
  let step := l.foldr
    (fun a acc =>
      if isPySpace a then
        if acc.2 ≠ ([] : List Char) then (acc.2 :: acc.1, ([] : List Char)) else acc
      else (acc.1, a :: acc.2))
    (([], []) : List (List Char) × List Char)
  if step.2 ≠ [] then step.2 :: step.1 else step.1

/-- The `while new_version_name.endswith("."): new_version_name =
new_version_name[:-1]` loop: drop every trailing `'.'`. -/
def dropTrailingDots (l : List Char) : List Char :=
  (l.reverse.dropWhile (fun c => c == '.')).reverse

/-- The loop `while re.match("^C+.+$", s): s = re.sub("^C+(.+)$", r"\1", s)`
of `normalize_version_name`, for one escaped character `C`.  Python semantics
modelled: `.` does not match a newline and `$` matches at the end of the
string or just before one final newline, so with `s = C^k ++ r` (`k` maximal)
the substitution yields `r` when `r` minus an optional final newline is
nonempty and newline-free (one iteration, after which no further match
exists), collapses `C^k` to a single `C` when nothing but an optional final
newline follows, and otherwise the pattern never matches. -/
def stripLeadingLoop (c : Char) (l : List Char) : List Char :=
  let k := (l.takeWhile (fun a => a == c)).length
  let r := l.dropWhile (fun a => a == c)
  if k == 0 then l
  else
    let t := if r.getLast? == some '\n' then r.dropLast else r
    if t ≠ [] ∧ '\n' ∉ t then r
    else if t = [] then c :: r
    else l

/-- The loop `while re.match("^.+?C+$", s): s = re.sub("^(.+?)C+$", r"\1", s)`
of `normalize_version_name`, for one escaped character `C` (same modelled `re`
semantics as `stripLeadingLoop`): the maximal trailing run of `C` before an
optional final newline is removed when a nonempty newline-free part precedes
it, collapses to a single `C` when nothing precedes it, and otherwise the
pattern never matches. -/
def stripTrailingLoop (c : Char) (l : List Char) : List Char :=
  let body := if l.getLast? == some '\n' then l.dropLast else l
  let tl := if l.getLast? == some '\n' then ['\n'] else []
  let m := (body.reverse.takeWhile (fun a => a == c)).length
  let u := (body.reverse.dropWhile (fun a => a == c)).reverse
  if m == 0 then l
  else if '\n' ∈ u then l
  else if u = [] then c :: tl
  else u ++ tl

/-- `illegal_characters` of `normalize_version_name`, in source order. -/
def illegalCharacters : List Char := ['#', '!', '?', '\\', '/', '~', '|', '&', '$']

/-- `normalize_version_name` (`main.py:1243`, identical in
`gog_installer_update_checker.py:1282`): for each illegal character strip its
leading run then its trailing run (two regex `while` loops), then
`strip().replace("_", " ")`, then drop trailing periods. -/
def normalize_version_name (version_name : String) : String :=
  let s := illegalCharacters.foldl
    (fun acc c => stripTrailingLoop c (stripLeadingLoop c acc)) version_name.data
  let s := pyStrip s
  let s := s.map (fun ch => if ch == '_' then ' ' else ch)
  String.mk (dropTrailingDots s)

theorem normalize_example_plain : normalize_version_name "1.2.0" = "1.2.0" := by decide

theorem normalize_example_underscore : normalize_version_name "_x" = " x" := by decide

theorem takeWhile_eqC_nil {c : Char} {l : List Char} (h : c ∉ l) :
    l.takeWhile (fun a => a == c) = [] := by
  cases l with
  | nil => rfl
  | cons a t =>
    have ha : a ≠ c := by
      intro hac
      exact h (hac ▸ List.mem_cons_self a t)
    simp [List.takeWhile_cons, ha]

theorem dropWhile_eq_self_of_forall {p : Char → Bool} {l : List Char}
    (h : ∀ a ∈ l, p a = false) : l.dropWhile p = l := by
  cases l with
  | nil => rfl
  | cons a t => simp [List.dropWhile_cons, h a (List.mem_cons_self a t)]

theorem stripLeadingLoop_noop {c : Char} {l : List Char} (h : c ∉ l) :
    stripLeadingLoop c l = l := by
  unfold stripLeadingLoop
  simp [takeWhile_eqC_nil h]

theorem stripTrailingLoop_noop {c : Char} {l : List Char} (h : c ∉ l) :
    stripTrailingLoop c l = l := by
  unfold stripTrailingLoop
  by_cases hl : l.getLast? == some '\n'
  · have hbody : c ∉ l.dropLast := fun hc => h ((List.dropLast_sublist l).mem hc)
    have : c ∉ l.dropLast.reverse := by simpa using hbody
    simp [hl, takeWhile_eqC_nil this]
  · have : c ∉ l.reverse := by simpa using h
    simp [hl, takeWhile_eqC_nil this]

theorem foldl_strip_noop {chars : List Char} {l : List Char}
    (h : ∀ c ∈ chars, c ∉ l) :
    chars.foldl (fun acc c => stripTrailingLoop c (stripLeadingLoop c acc)) l = l := by
  induction chars with
  | nil => rfl
  | cons c cs ih =>
    have hc : c ∉ l := h c (List.mem_cons_self c cs)
    simp only [List.foldl_cons, stripLeadingLoop_noop hc, stripTrailingLoop_noop hc]
    exact ih (fun c' hc' => h c' (List.mem_cons_of_mem c hc'))

theorem map_underscore_noop {l : List Char} (h : ∀ a ∈ l, a ≠ '_') :
    l.map (fun ch => if ch == '_' then ' ' else ch) = l := by
  induction l with
  | nil => rfl
  | cons a t ih =>
    have ha : (a == '_') = false := by
      simp [h a (List.mem_cons_self a t)]
    simp only [List.map_cons, ha]
    rw [ih (fun a' ha' => h a' (List.mem_cons_of_mem a ha'))]
    simp

theorem pyStrip_noop {l : List Char} (h : ∀ a ∈ l, isPySpace a = false) :
    pyStrip l = l := by
  unfold pyStrip
  rw [dropWhile_eq_self_of_forall h]
  rw [dropWhile_eq_self_of_forall (fun a ha => h a (List.mem_reverse.mp ha))]
  exact List.reverse_reverse l

theorem dropWhile_idem {p : Char → Bool} (l : List Char) :
    (l.dropWhile p).dropWhile p = l.dropWhile p := by
  induction l with
  | nil => rfl
  | cons a t ih =>
    by_cases hp : p a
    · simp [List.dropWhile_cons, hp, ih]
    · simp [List.dropWhile_cons, hp]

theorem dropTrailingDots_idem (l : List Char) :
    dropTrailingDots (dropTrailingDots l) = dropTrailingDots l := by
  unfold dropTrailingDots
  rw [List.reverse_reverse, dropWhile_idem]

theorem mem_of_mem_dropTrailingDots {a : Char} {l : List Char}
    (h : a ∈ dropTrailingDots l) : a ∈ l := by
  unfold dropTrailingDots at h
  rw [List.mem_reverse] at h
  exact List.mem_reverse.mp ((List.dropWhile_sublist _).mem h)

theorem normalize_on_clean (s : String)
    (h : ∀ c ∈ s.data, isPySpace c = false ∧ c ≠ '_' ∧ c ∉ illegalCharacters) :
    normalize_version_name s = String.mk (dropTrailingDots s.data) := by
  simp only [normalize_version_name]
  rw [foldl_strip_noop (fun c hc hmem => (h c hmem).2.2 hc)]
  rw [pyStrip_noop (fun a ha => (h a ha).1)]
  rw [map_underscore_noop (fun a ha => (h a ha).2.1)]

/-- C3 counterexample: `normalize_version_name` is not idempotent.  On `"_x"`
the underscore survives `strip()` (it is not whitespace) and is turned into a
leading space afterwards, so one application yields `" x"` while a second
application strips that space and yields `"x"`. -/
theorem normalize_not_idempotent_cex :
    normalize_version_name (normalize_version_name "_x") ≠
      normalize_version_name "_x" := by decide

/-- C3 (amended): `normalize_version_name` is idempotent on every string that
contains no whitespace character, no underscore, and none of the illegal
characters `# ! ? \ / ~ | & $`.  (In general it is not idempotent: the
underscore replacement runs after `strip()`, stripping a later-listed illegal
character can expose an earlier-listed one, and dropping trailing periods can
expose trailing whitespace.) -/
theorem normalize_idempotent_on_clean_strings (s : String)
    (h : ∀ c ∈ s.data, isPySpace c = false ∧ c ≠ '_' ∧ c ∉ illegalCharacters) :
    normalize_version_name (normalize_version_name s) =
      normalize_version_name s := by
  rw [normalize_on_clean s h]
  have hmem : ∀ c ∈ (String.mk (dropTrailingDots s.data)).data,
      isPySpace c = false ∧ c ≠ '_' ∧ c ∉ illegalCharacters := by
    intro c hc
    exact h c (mem_of_mem_dropTrailingDots hc)
  rw [normalize_on_clean _ hmem]
  show String.mk (dropTrailingDots (dropTrailingDots s.data)) = _
  rw [dropTrailingDots_idem]

/-- Witness for C3's amended theorem at the concrete input `"1.2.0"`. -/
theorem normalize_idempotent_on_clean_strings_witness :
    normalize_version_name (normalize_version_name "1.2.0") =
      normalize_version_name "1.2.0" :=
  normalize_idempotent_on_clean_strings "1.2.0" (by decide)

/-- The character class `[a-zá-úñ]` under `re.IGNORECASE`: ASCII letters,
the code points `U+00E1`-`U+00FA` (which contain `ñ`), and the uppercase
counterparts `U+00C1`-`U+00DA` of the letters in that range (`×`, `U+00D7`,
is excluded because its lowercase image `÷` lies in the range only as a
literal, not as a case pair). -/
def isRepairLetter (c : Char) : Bool :=
  (0x61 ≤ c.toNat && c.toNat ≤ 0x7a) || (0x41 ≤ c.toNat && c.toNat ≤ 0x5a) ||
  (0xe1 ≤ c.toNat && c.toNat ≤ 0xfa) ||
  (0xc1 ≤ c.toNat && c.toNat ≤ 0xda && c.toNat != 0xd7)

/-- The guard `re.search(r"[a-zá-úñ]-", product_name, re.IGNORECASE)` of the
hyphen-spacing repair loop in `get_product_id` (`main.py:456`,
`gog_installer_update_checker.py:468`): some letter is immediately followed
by a hyphen. -/
def hyphenGuard : List Char → Bool
  | [] => false
  | [_] => false
  | a :: b :: rest => (isRepairLetter a && b == '-') || hyphenGuard (b :: rest)

/-- One execution of
`re.sub(r"([a-zá-úñ])-\s", r"\1 - ", product_name, re.IGNORECASE)`
(`main.py:457`, `gog_installer_update_checker.py:469`): every non-overlapping
occurrence of letter, hyphen, whitespace is rewritten to letter, `" - "`,
scanning left to right. -/
def hyphenSubOnce : List Char → List Char
  | a :: '-' :: w :: rest =>
    if isRepairLetter a && isPySpace w then
      a :: ' ' :: '-' :: ' ' :: hyphenSubOnce rest
    else
      a :: hyphenSubOnce ('-' :: w :: rest)
  | a :: rest => a :: hyphenSubOnce rest
  | [] => []

/-- The repair loop `while re.search(...): product_name = re.sub(...)`,
with an explicit iteration budget: `none` means the loop was still running
when the budget ran out. -/
def hyphenRepairLoop : Nat → List Char → Option (List Char)
  | 0, l => if hyphenGuard l then none else some l
  | n + 1, l => if hyphenGuard l then hyphenRepairLoop n (hyphenSubOnce l) else some l

theorem hyphen_repair_example :
    hyphenRepairLoop 2 "Alpha- Beta".data = some "Alpha - Beta".data := by decide

theorem hyphenRepairLoop_stuck {l : List Char} (hg : hyphenGuard l = true)
    (hs : hyphenSubOnce l = l) : ∀ n, hyphenRepairLoop n l = none := by
  intro n
  induction n with
  | zero => simp [hyphenRepairLoop, hg]
  | succ m ih => simp [hyphenRepairLoop, hg, hs, ih]

/-- C2: the hyphen-spacing repair pass does not terminate on every input.
On `"Half-Life"` — any name with a letter, a hyphen and then a
non-whitespace character — the `while` guard `[a-zá-úñ]-` matches but the
substitution `([a-zá-úñ])-\s` requires whitespace after the hyphen and
rewrites nothing, so the loop body never changes the string and the loop
runs forever, whatever iteration budget it is given. -/
theorem hyphen_repair_diverges_on_half_life (fuel : Nat) :
    hyphenRepairLoop fuel "Half-Life".data = none :=
  hyphenRepairLoop_stuck (by decide) (by decide) fuel

/-- Python `s.lower()`, modelled on the ASCII and Latin-1 ranges (the only
ones exercised by the engine): `A`-`Z` and `À`-`Þ` except `×` map to their
lowercase counterparts 0x20 higher; every other character is unchanged. -/
def pyToLower (c : Char) : Char :=
  if 0x41 ≤ c.toNat && c.toNat ≤ 0x5a then Char.ofNat (c.toNat + 0x20)
  else if 0xc0 ≤ c.toNat && c.toNat ≤ 0xde && c.toNat != 0xd7 then
    Char.ofNat (c.toNat + 0x20)
  else c

/-- Python `s.lower()` on a whole string. -/
def pyLower (l : List Char) : List Char := l.map pyToLower

/-- Worker for `pyReplaceAll`, structurally recursive on an explicit budget
(`n` starts at the string length, which one step per character cannot
exhaust since every replacement consumes at least one character). -/
def pyReplaceAllAux (pat rep : List Char) : Nat → List Char → List Char
  | 0, l => l
  | _ + 1, [] => []
  | n + 1, a :: rest =>
    if pat.isPrefixOf (a :: rest) then
      rep ++ pyReplaceAllAux pat rep n ((a :: rest).drop pat.length)
    else
      a :: pyReplaceAllAux pat rep n rest

/-- Python `s.replace(pat, rep)` for a nonempty `pat`: replace every
non-overlapping occurrence, scanning left to right.  (The engine only calls
it with nonempty roman-numeral keys; an empty `pat` is left as a no-op
rather than modelling Python's everywhere-insertion.) -/
def pyReplaceAll (pat rep l : List Char) : List Char :=
  if pat = [] then l else pyReplaceAllAux pat rep l.length l

/-- `re.sub(pat, rep, s, 1)` for a pattern consisting only of literal
characters: replace the first occurrence of `pat`, if any. -/
def pyReplaceFirst (pat rep : List Char) : List Char → List Char
  | [] => []
  | a :: rest =>
    if pat ≠ [] && pat.isPrefixOf (a :: rest) then
      rep ++ (a :: rest).drop pat.length
    else
      a :: pyReplaceFirst pat rep rest

/-- One candidate of the public text search: `{"id": ..., "title": ...}`. -/
structure GogSearchProduct where
  id : String
  title : String
  deriving Repr, DecidableEq

/-- Body of the response of
`https://embed.gog.com/games/ajax/filtered?mediaType=game&search=...`. -/
structure GogSearchResponse where
  totalGamesFound : Nat
  products : List GogSearchProduct
  deriving Repr, DecidableEq

/-- Outcome of `search_product_id_on_gog`.  `.pyError` marks the
`IndexError` of `products[0]` on an empty candidate list; `.fuelOut` means
the recursion was still running when the explicit budget ran out. -/
inductive SearchOutcome where
  | resolved (id : String)
  | unresolved
  | pyError
  | fuelOut
  deriving Repr, DecidableEq

/-- The roman-numeral substitution pass of `main.py`'s
`search_product_id_on_gog` (lines 478-482): for each configured numeral in
configuration order, if it occurs as a whitespace-separated word of the
name, set `found_numeral` and replace every occurrence of the numeral (as a
substring, via `str.replace`) by `str(value)`. -/
def romanSubstPassMain (numerals : List (String × Int)) (name : List Char) :
    List Char × Bool :=
  numerals.foldl
    (fun acc p =>
      if (pySplit acc.1).contains p.1.data then
        (pyReplaceAll p.1.data (toString p.2).data acc.1, true)
      else acc)
    (name, false)

/-- The substitution pass of `gog_installer_update_checker.py`'s
`search_product_id_on_gog` (lines 484-489): the same word test, but the
replacement is `re.sub(f"\b{numeral}\b", str(value), product_name, 1)`.
The pattern is an f-string, not a raw string, so `\b` is the literal
backspace character `U+0008` and the pattern is matched literally. -/
def romanSubstPassGuic (numerals : List (String × Int)) (name : List Char) :
    List Char × Bool :=
  numerals.foldl
    (fun acc p =>
      if (pySplit acc.1).contains p.1.data then
        (pyReplaceFirst ('\x08' :: p.1.data ++ ['\x08']) (toString p.2).data acc.1,
          true)
      else acc)
    (name, false)

/-- `search_product_id_on_gog`, common shape of both files with the
substitution pass abstracted as `subst`: the remote text search is the
oracle `catalog` (`none` models a failed download, i.e. `download_data`
returning `None`).  `fuel` bounds the recursion depth and `.fuelOut`
reports its exhaustion. -/
def search_product_id_on_gog
    (catalog : List Char → Option GogSearchResponse)
    (subst : List Char → List Char × Bool) :
    Nat → List Char → SearchOutcome
  | 0, _ => .fuelOut
  | fuel + 1, product_name =>
    match catalog product_name with
    | none => .unresolved
    | some info =>
      if info.totalGamesFound == 0 then
        let pass := subst product_name
        if pass.2 then search_product_id_on_gog catalog subst fuel pass.1
        else .unresolved
      else if info.totalGamesFound == 1 then
        match info.products with
        | p :: _ => .resolved p.id
        | [] => .pyError
      else
        match info.products.find?
            (fun p => pyLower product_name == pyLower p.title.data) with
        | some p => .resolved p.id
        | none => .unresolved

/-- A catalog on which every text search returns zero results. -/
def zeroCatalog : List Char → Option GogSearchResponse :=
  fun _ => some ⟨0, []⟩

/-- `main.py`'s variant on the claim's example: with mapping `{"II": 2}` and
an always-empty catalog, searching `"Game II"` performs exactly one retry —
a budget of two searches ends in `unresolved`, a budget of one is
exhausted by the initial search plus the single retry. -/
theorem search_main_game_ii_single_retry :
    search_product_id_on_gog zeroCatalog (romanSubstPassMain [("II", 2)])
        2 "Game II".data = .unresolved ∧
    search_product_id_on_gog zeroCatalog (romanSubstPassMain [("II", 2)])
        1 "Game II".data = .fuelOut := by decide

/-- C1: in `gog_installer_update_checker.py`, searching for `"Game II"` with
the configured mapping `{"II": 2}` against a catalog that always returns
zero results never terminates: the backspace-delimited pattern
`f"\b{numeral}\b"` matches nothing, so the name is never changed, yet
`found_numeral` is set because `"II"` is a word of the name, and the
function keeps recursing on the identical name for every recursion budget
(a `RecursionError` in Python) instead of retrying exactly once as
`"Game 2"` and returning unresolved.  (`main.py`'s `str.replace` variant
does behave as claimed, see `search_main_game_ii_single_retry`.) -/
theorem search_retry_diverges_on_game_ii (fuel : Nat) :
    search_product_id_on_gog zeroCatalog (romanSubstPassGuic [("II", 2)])
      fuel "Game II".data = .fuelOut := by
  induction fuel with
  | zero => rfl
  | succ n ih =>
    have hsub : romanSubstPassGuic [("II", 2)] "Game II".data =
        ("Game II".data, true) := by decide
    simp only [search_product_id_on_gog, zeroCatalog, hsub]
    exact ih

/-- The fields of the goggame info descriptor consulted by `is_main_game`
(an absent key reads as `none` via `dict.get`). -/
structure InstallerDescriptor where
  dependencyGameId : Option String
  gameId : Option String
  rootGameId : Option String
  deriving Repr, DecidableEq

/-- Python `str(x)` on an optional string: `str(None)` is `"None"`. -/
def pyStr : Option String → String
  | none => "None"
  | some s => s

/-- `is_main_game` (`main.py:861-880`; `gog_installer_update_checker.py:886`
is the same decision, its extra `Goodies_ID is None` arm coinciding with an
empty goodie set).  `goodies` is the key set of the configured `Goodies_ID`
mapping. -/
def is_main_game (goodies : List String) (installer_info : InstallerDescriptor) :
    Bool :=
  match installer_info.dependencyGameId with
  | some dep => if dep ≠ "" then false else true
  | none =>
    if installer_info.gameId ≠ installer_info.rootGameId then false
    else if goodies.contains (pyStr installer_info.rootGameId) then false
    else true

/-- C4 counterexample: a descriptor whose `dependencyGameId` is present but
empty is INCLUDED immediately (`return True`), even though its `gameId`
differs from its `rootGameId` — the claim says such a descriptor is still
excluded. -/
theorem is_main_game_empty_dependency_cex :
    is_main_game [] ⟨some "", some "g", some "r"⟩ = true := by decide

/-- C4 (amended): the exclusion rules of `is_main_game` in evaluation
order — a present and non-empty `dependencyGameId` excludes; a present but
EMPTY `dependencyGameId` includes immediately, without evaluating the
remaining rules; with the field absent, a `gameId` different from
`rootGameId` excludes, else a `rootGameId` rendered into the configured
goodie-id key set excludes, else the descriptor is included. -/
theorem is_main_game_rule_order (goodies : List String)
    (info : InstallerDescriptor) :
    (∀ dep, info.dependencyGameId = some dep → dep ≠ "" →
        is_main_game goodies info = false) ∧
    (info.dependencyGameId = some "" → is_main_game goodies info = true) ∧
    (info.dependencyGameId = none → info.gameId ≠ info.rootGameId →
        is_main_game goodies info = false) ∧
    (info.dependencyGameId = none → info.gameId = info.rootGameId →
        goodies.contains (pyStr info.rootGameId) = true →
        is_main_game goodies info = false) ∧
    (info.dependencyGameId = none → info.gameId = info.rootGameId →
        goodies.contains (pyStr info.rootGameId) = false →
        is_main_game goodies info = true) := by
  refine ⟨?_, ?_, ?_, ?_, ?_⟩
  · intro dep hdep hne
    simp [is_main_game, hdep, hne]
  · intro hdep
    simp [is_main_game, hdep]
  · intro hdep hne
    simp [is_main_game, hdep, hne]
  · intro hdep heq hg
    have hmem : pyStr info.rootGameId ∈ goodies := by simpa using hg
    simp [is_main_game, hdep, heq, hmem]
  · intro hdep heq hg
    have hmem : pyStr info.rootGameId ∉ goodies := by simpa using hg
    simp [is_main_game, hdep, heq, hmem]

/-- Witness for C4's amended theorem: a plain base-game descriptor (equal
ids, no dependency, no goodie match) is included. -/
theorem is_main_game_rule_order_witness :
    is_main_game ["55"] ⟨none, some "1207", some "1207"⟩ = true :=
  (is_main_game_rule_order ["55"] ⟨none, some "1207", some "1207"⟩).2.2.2.2
    rfl rfl (by decide)

/-- One local installer record as assembled by `insert_missing_info` /
`get_local_info_from_exe` and consumed by the comparison step.  `build_id`
is modelled as the integer value `int(...)` would produce (`none` when the
field is `None`, which in the code raises a caught `TypeError` and yields
the `UNKNOWN` sentinel); `old_version` is the installer generation flag
(`True` = Legacy). -/
structure LocalInstallerInfo where
  product_id : String
  product_name : String
  version_name : Option String
  build_id : Option Int
  old_version : Bool
  deriving Repr, DecidableEq

/-- `online_info[product_id]` as built by `load_online_data`: a product that
was not found online has all three fields `None`. -/
structure OnlineInfo where
  version_name : Option String
  build_id : Option Int
  old_version : Option Bool
  deriving Repr, DecidableEq

/-- One entry of `new_versions_dict` (an update finding).  `local_build` /
`online_build` are `none` when the code stored the `UNKNOWN` sentinel, and
`online_version` is `none` when the code stored Python `None`. -/
structure NewVersionEntry where
  product_name : String
  local_version : String
  local_build : Option Int
  local_old_version : Bool
  online_version : Option String
  online_build : Option Int
  online_old_version : Bool
  deriving Repr, DecidableEq

/-- The one uncaught exception class the comparison step can raise. -/
inductive PyError where
  | typeError
  deriving Repr, DecidableEq

/-- `versions_should_match` (`main.py:1209-1240`): look the product id up in
the configured `Match_Versions` dictionary (modelled as an association
list) and report whether some configured group contains both version
strings.  Groups whose length is not exactly 2 are skipped with an error
log (`main.py:1229-1232`; in `gog_installer_update_checker.py:1258` the
skip is absent but its configuration type only admits two-element groups,
so the restriction holds in both files).  A `None` online version is never
a member of a group of strings. -/
def versions_should_match (matchVersions : List (String × List (List String)))
    (product_id local_version : String) (online_version : Option String) :
    Bool :=
  match matchVersions.find? (fun p => p.1 == product_id) with
  | none => false
  | some p =>
    p.2.any (fun version_list =>
      version_list.length == 2 &&
      (match online_version with
       | some ov => version_list.contains ov
       | none => false) &&
      version_list.contains local_version)

/-- Lines 1159-1164 of `main.py` (`compare_new_versions`): when the local
version is missing or `"Unknown"`, one direct remote lookup by build id
(`get_local_version_from_gog`, here the oracle `lookup`) backfills it; if
that also yields nothing the version renders `"Unknown"`. -/
def backfillLocalVersion (lookup : Int → String → Option String)
    (local_build : Int) (product_id : String) (version_name : Option String) :
    String :=
  let lv :=
    match version_name with
    | none => lookup local_build product_id
    | some v => if v == "Unknown" then lookup local_build product_id else some v
  lv.getD "Unknown"

/-- `compare_new_versions` (`main.py:1128-1206`; same logic at
`gog_installer_update_checker.py:1171-1255`) for one record, with the
remote by-build lookup as the oracle `lookup`.  `.ok (some e)` means the
record was reported into `new_versions_dict` as `e`, `.ok none` that
nothing was reported, and `.error .typeError` models the uncaught Python
`TypeError` of `normalize_version_name(None)` (`re.match` on `None`) when
the remote version is `None` on the string-comparison path. -/
def compare_new_versions (matchVersions : List (String × List (List String)))
    (lookup : Int → String → Option String)
    (local_info : LocalInstallerInfo) (online : OnlineInfo) :
    Except PyError (Option NewVersionEntry) :=
  let product_id := local_info.product_id
  let product_name := local_info.product_name
  let online_version := online.version_name
  match online.build_id, local_info.build_id with
  | some online_build, some local_build =>
    if local_build < online_build then
      .ok (some ⟨product_name,
        backfillLocalVersion lookup local_build product_id local_info.version_name,
        some local_build, false, online_version, some online_build, false⟩)
    else
      .ok none
  | ob, lb =>
    match local_info.version_name with
    | none => .ok none
    | some lv =>
      if lv == "Unknown" then .ok none
      else if versions_should_match matchVersions product_id lv online_version then
        .ok none
      else
        match online_version with
        | none => .error .typeError
        | some ov =>
          if pyLower (normalize_version_name lv).data ≠
              pyLower (normalize_version_name ov).data then
            .ok (some ⟨product_name, lv, lb, false, online_version, ob, false⟩)
          else
            .ok none

/-- `compare_old_versions` (`main.py:1291-1365`; same logic at
`gog_installer_update_checker.py:1332-1411`) for one Legacy local record. -/
def compare_old_versions (matchVersions : List (String × List (List String)))
    (local_info : LocalInstallerInfo) (online : OnlineInfo) :
    Option NewVersionEntry :=
  let product_id := local_info.product_id
  let product_name := local_info.product_name
  match online.old_version with
  | none => none
  | some online_old =>
    let online_version := online.version_name.getD "Unknown"
    let local_version := local_info.version_name.getD "Unknown"
    let local_build := local_info.build_id
    let online_build := online.build_id
    if online_old then
      if online_version == "Unknown" then none
      else if versions_should_match matchVersions product_id local_version
          (some online_version) then none
      else if online_version ≠ local_version then
        some ⟨product_name, local_version, local_build, true,
          some online_version, online_build, true⟩
      else none
    else
      some ⟨product_name, local_version, local_build, true,
        some online_version, online_build, false⟩

/-- The per-record dispatch of `compare_versions` (`main.py:1092-1102`):
Legacy local records go to `compare_old_versions`, Modern ones to
`compare_new_versions`. -/
def compare_one (matchVersions : List (String × List (List String)))
    (lookup : Int → String → Option String)
    (local_info : LocalInstallerInfo) (online : OnlineInfo) :
    Except PyError (Option NewVersionEntry) :=
  if local_info.old_version then
    .ok (compare_old_versions matchVersions local_info online)
  else
    compare_new_versions matchVersions lookup local_info online

theorem assoc_key_unique {α β : Type} {l : List (α × β)}
    (h : (l.map Prod.fst).Nodup) {k : α} {v w : β}
    (hv : (k, v) ∈ l) (hw : (k, w) ∈ l) : v = w := by
  induction l with
  | nil => cases hv
  | cons a t ih =>
    rw [List.map_cons, List.nodup_cons] at h
    rcases List.mem_cons.mp hv with hv1 | hv1 <;>
      rcases List.mem_cons.mp hw with hw1 | hw1
    · rw [← hv1] at hw1
      exact congrArg Prod.snd hw1.symm
    · exfalso
      apply h.1
      have hk : k ∈ t.map Prod.fst := List.mem_map_of_mem Prod.fst hw1
      rw [← hv1]
      exact hk
    · exfalso
      apply h.1
      have hk : k ∈ t.map Prod.fst := List.mem_map_of_mem Prod.fst hv1
      rw [← hw1]
      exact hk
    · exact ih h.2 hv1 hw1

/-- The condition named by the amended C5: the local and remote version
strings co-occur in some configured equivalence group of exactly two
entries for the product id. -/
def coOccurInPairGroup (matchVersions : List (String × List (List String)))
    (pid lv : String) (ov : Option String) : Prop :=
  ∃ gs, (pid, gs) ∈ matchVersions ∧ ∃ g ∈ gs, g.length = 2 ∧
    (∃ o, ov = some o ∧ o ∈ g) ∧ lv ∈ g

/-- `versions_should_match` decides exactly the two-element-group
co-occurrence condition, provided the configured dictionary has no
duplicate keys (a Python dict cannot have any). -/
theorem versions_should_match_iff
    (matchVersions : List (String × List (List String)))
    (pid lv : String) (ov : Option String)
    (hnodup : (matchVersions.map Prod.fst).Nodup) :
    versions_should_match matchVersions pid lv ov = true ↔
      coOccurInPairGroup matchVersions pid lv ov := by
  unfold versions_should_match coOccurInPairGroup
  cases hfind : matchVersions.find? (fun p => p.1 == pid) with
  | none =>
    simp only [Bool.false_eq_true, false_iff]
    rintro ⟨gs, hmem, -⟩
    have := List.find?_eq_none.mp hfind (pid, gs) hmem
    simp at this
  | some p =>
    have hp : p ∈ matchVersions := List.mem_of_find?_eq_some hfind
    have hpid : p.1 = pid := by
      have := List.find?_some hfind
      simpa using this
    constructor
    · intro hany
      rw [List.any_eq_true] at hany
      obtain ⟨g, hg, hcond⟩ := hany
      refine ⟨p.2, by rwa [← hpid, Prod.mk.eta], g, hg, ?_⟩
      cases ov with
      | none => simp at hcond
      | some o =>
        simp only [Bool.and_eq_true, beq_iff_eq] at hcond
        exact ⟨hcond.1.1, ⟨o, rfl, by simpa using hcond.1.2⟩,
          by simpa using hcond.2⟩
    · rintro ⟨gs, hmem, g, hg, hlen, ⟨o, hov, ho⟩, hlv⟩
      have hgs : gs = p.2 := by
        have hpmem : (pid, p.2) ∈ matchVersions := by
          rwa [← hpid, Prod.mk.eta]
        exact assoc_key_unique hnodup hmem hpmem
      subst hgs
      rw [List.any_eq_true]
      refine ⟨g, hg, ?_⟩
      subst hov
      simp only [Bool.and_eq_true, beq_iff_eq]
      exact ⟨⟨hlen, by simpa using ho⟩, by simpa using hlv⟩

/-- `compare_new_versions` when at least one build id is missing: the
record's fate is decided by the local-version guard, the equivalence
override and the normalized case-insensitive string comparison. -/
theorem compare_new_versions_missing_build
    (matchVersions : List (String × List (List String)))
    (lookup : Int → String → Option String)
    (local_info : LocalInstallerInfo) (online : OnlineInfo)
    (hmiss : online.build_id = none ∨ local_info.build_id = none) :
    compare_new_versions matchVersions lookup local_info online =
      (match local_info.version_name with
       | none => .ok none
       | some lv =>
         if lv == "Unknown" then .ok none
         else if versions_should_match matchVersions local_info.product_id lv
             online.version_name then .ok none
         else
           match online.version_name with
           | none => .error .typeError
           | some ov =>
             if pyLower (normalize_version_name lv).data ≠
                 pyLower (normalize_version_name ov).data then
               .ok (some ⟨local_info.product_name, lv, local_info.build_id, false,
                 online.version_name, online.build_id, false⟩)
             else .ok none) := by
  cases hob : online.build_id with
  | none =>
    cases hlb : local_info.build_id <;>
      simp [compare_new_versions, hob, hlb]
  | some ob =>
    cases hlb : local_info.build_id with
    | none => simp [compare_new_versions, hob, hlb]
    | some lb =>
      rcases hmiss with h | h
      · rw [hob] at h
        cases h
      · rw [hlb] at h
        cases h

/-- C5 counterexample: with the configured groups
`{"7": [["1.0", "1.0a", "1.0b"]]}` — a single group of three — local
version `"1.0"`, remote version `"1.0a"` and the remote build id missing,
an update IS reported: `versions_should_match` skips every group whose
length is not exactly 2 (`main.py:1229`), so the co-occurrence in the
three-element group does not make the versions equal, refuting the claim's
"groups of any size".  (In `gog_installer_update_checker.py` such a
configuration cannot even load: its `Match_Versions` type admits only
pairs.) -/
theorem match_versions_three_element_group_cex :
    compare_new_versions [("7", [["1.0", "1.0a", "1.0b"]])] (fun _ _ => none)
      ⟨"7", "G", some "1.0", some 100, false⟩ ⟨some "1.0a", none, some false⟩ =
      .ok (some ⟨"G", "1.0", some 100, false, some "1.0a", none, false⟩) := by
  rfl

/-- C5 (amended): for every Modern local record compared while at least one
of the two build ids is missing — an unknown local version is logged and
skipped; otherwise, if the local and remote version strings co-occur in a
configured equivalence group of exactly two entries for the product id,
they are treated as equal and no update is reported; otherwise, when the
remote version string is present, both strings are normalized and compared
case-insensitively, a mismatch yielding an update and a match yielding
up-to-date. -/
theorem compare_new_missing_build_spec
    (matchVersions : List (String × List (List String)))
    (lookup : Int → String → Option String)
    (local_info : LocalInstallerInfo) (online : OnlineInfo)
    (hnodup : (matchVersions.map Prod.fst).Nodup)
    (hmodern : local_info.old_version = false)
    (hmiss : online.build_id = none ∨ local_info.build_id = none) :
    ((local_info.version_name = none ∨ local_info.version_name = some "Unknown") →
        compare_one matchVersions lookup local_info online = .ok none) ∧
    (∀ lv, local_info.version_name = some lv → lv ≠ "Unknown" →
      (coOccurInPairGroup matchVersions local_info.product_id lv
          online.version_name →
        compare_one matchVersions lookup local_info online = .ok none) ∧
      (¬coOccurInPairGroup matchVersions local_info.product_id lv
          online.version_name →
        ∀ ov, online.version_name = some ov →
          compare_one matchVersions lookup local_info online =
            .ok (if pyLower (normalize_version_name lv).data =
                   pyLower (normalize_version_name ov).data
                 then none
                 else some ⟨local_info.product_name, lv, local_info.build_id,
                   false, online.version_name, online.build_id, false⟩))) := by
  have hone : compare_one matchVersions lookup local_info online =
      compare_new_versions matchVersions lookup local_info online := by
    simp [compare_one, hmodern]
  rw [hone, compare_new_versions_missing_build matchVersions lookup local_info
    online hmiss]
  refine ⟨?_, ?_⟩
  · rintro (hv | hv) <;> simp [hv]
  · intro lv hlv hunk
    have hvsm := versions_should_match_iff matchVersions local_info.product_id
      lv online.version_name hnodup
    refine ⟨?_, ?_⟩
    · intro hco
      simp [hlv, hunk, hvsm.mpr hco]
    · intro hco ov hov
      have hfalse : versions_should_match matchVersions local_info.product_id lv
          online.version_name = false := by
        rcases hb : versions_should_match matchVersions local_info.product_id lv
            online.version_name with _ | _
        · rfl
        · exact absurd (hvsm.mp hb) hco
      rw [hov] at hfalse
      by_cases hne : pyLower (normalize_version_name lv).data =
          pyLower (normalize_version_name ov).data
      · simp [hlv, hunk, hfalse, hov, hne]
      · simp [hlv, hunk, hfalse, hov, hne]

/-- Witness for C5's amended theorem: a configured two-element group makes
`"1.0"` and `"1.0.0"` equal, so no update is reported. -/
theorem compare_new_missing_build_spec_witness :
    compare_one [("7", [["1.0", "1.0.0"]])] (fun _ _ => none)
      ⟨"7", "G", some "1.0", some 100, false⟩ ⟨some "1.0.0", none, some false⟩ =
      .ok none := by
  have h := ((compare_new_missing_build_spec [("7", [["1.0", "1.0.0"]])]
      (fun _ _ => none) ⟨"7", "G", some "1.0", some 100, false⟩
      ⟨some "1.0.0", none, some false⟩ (by decide) rfl (Or.inl rfl)).2
      "1.0" rfl (by decide)).1
  exact h ⟨[["1.0", "1.0.0"]], by decide, ["1.0", "1.0.0"], by decide, by decide,
    ⟨"1.0.0", rfl, by decide⟩, by decide⟩

/-- C6: for a Modern local record whose local and remote build ids are both
present, the builds are compared as integers — a remote build strictly
greater than the local one yields an update finding whose local version is
backfilled by one direct remote lookup by build id when unknown (rendering
`"Unknown"` when that also fails) and whose generation tags are both
Modern; a remote build less than or equal to the local one yields no
finding. -/
theorem compare_new_both_builds_spec
    (matchVersions : List (String × List (List String)))
    (lookup : Int → String → Option String)
    (local_info : LocalInstallerInfo) (online : OnlineInfo) (lb ob : Int)
    (hmodern : local_info.old_version = false)
    (hlb : local_info.build_id = some lb)
    (hob : online.build_id = some ob) :
    (lb < ob →
      compare_one matchVersions lookup local_info online =
        .ok (some ⟨local_info.product_name,
          backfillLocalVersion lookup lb local_info.product_id
            local_info.version_name,
          some lb, false, online.version_name, some ob, false⟩)) ∧
    (ob ≤ lb →
      compare_one matchVersions lookup local_info online = .ok none) := by
  constructor
  · intro hlt
    simp [compare_one, hmodern, compare_new_versions, hlb, hob, hlt]
  · intro hle
    simp [compare_one, hmodern, compare_new_versions, hlb, hob, not_lt.mpr hle]

/-- Witness for C6 at remote build `105 > 100` with an unknown local
version and a failing by-build lookup: an update is found and the local
version renders `"Unknown"`. -/
theorem compare_new_both_builds_spec_witness :
    compare_one [] (fun _ _ => none)
      ⟨"10", "G", none, some 100, false⟩ ⟨some "1.1", some 105, some false⟩ =
      .ok (some ⟨"G", "Unknown", some 100, false, some "1.1", some 105,
        false⟩) := by
  have h := (compare_new_both_builds_spec [] (fun _ _ => none)
      ⟨"10", "G", none, some 100, false⟩ ⟨some "1.1", some 105, some false⟩
      100 105 rfl rfl rfl).1 (by norm_num)
  simpa [backfillLocalVersion] using h

/-- C7: for a Legacy local record whose remote info was found and is Modern
(`old_version = some false`), the reconciler always reports an update —
whatever the version strings and build ids — tagging only the local side as
Legacy (`local_old_version = true`, `online_old_version = false`). -/
theorem compare_old_modern_remote_always_update
    (matchVersions : List (String × List (List String)))
    (lookup : Int → String → Option String)
    (local_info : LocalInstallerInfo) (online : OnlineInfo)
    (hlegacy : local_info.old_version = true)
    (hremote : online.old_version = some false) :
    compare_one matchVersions lookup local_info online =
      .ok (some ⟨local_info.product_name,
        local_info.version_name.getD "Unknown", local_info.build_id, true,
        some (online.version_name.getD "Unknown"), online.build_id,
        false⟩) := by
  simp [compare_one, hlegacy, compare_old_versions, hremote]

/-- Witness for C7: a Legacy local `"3.0"` against a Modern remote is
reported with only the local side tagged Legacy. -/
theorem compare_old_modern_remote_always_update_witness :
    compare_one [] (fun _ _ => none)
      ⟨"10", "G", some "3.0", none, true⟩ ⟨some "1.1", some 105, some false⟩ =
      .ok (some ⟨"G", "3.0", none, true, some "1.1", some 105, false⟩) := by
  have h := compare_old_modern_remote_always_update [] (fun _ _ => none)
    ⟨"10", "G", some "3.0", none, true⟩ ⟨some "1.1", some 105, some false⟩
    rfl rfl
  simpa using h

/-- C9: a Modern local record with a known local version whose remote entry
was not found (all three remote fields `None`) does NOT complete by
skipping or reporting: the remote build id is missing, the known local
version passes the guard, the equivalence lookup finds nothing, and
`normalize_version_name(None)` then calls `re.match` on `None`, raising a
`TypeError` that propagates out of the whole comparison batch. -/
theorem compare_new_remote_missing_raises :
    compare_new_versions [] (fun _ _ => none)
      ⟨"7", "G", some "1.0", some 100, false⟩ ⟨none, none, none⟩ =
      .error .typeError := by rfl

/-- Python string comparison `a <= b`: lexicographic on code points,
expressed through the character-list order (Python `sorted`'s order on
strings). -/
def pyStrLe (a b : String) : Prop := a.data ≤ b.data

instance : DecidableRel pyStrLe :=
  fun a b => inferInstanceAs (Decidable (a.data ≤ b.data))

instance : IsTrans String pyStrLe :=
  ⟨fun _ _ _ hab hbc => le_trans hab hbc⟩

instance : IsTotal String pyStrLe :=
  ⟨fun a b => le_total a.data b.data⟩

instance : IsAntisymm String pyStrLe :=
  ⟨fun a b hab hba => by
    cases a
    cases b
    exact congrArg String.mk (le_antisymm hab hba)⟩

/-- `sorted(d.keys())` for a Python dictionary `d`, modelled as an
association list with distinct keys (insertion sort implements `sorted`;
stability is irrelevant on a duplicate-free key list under a total
order). -/
def sortedKeys (d : List (String × String)) : List String :=
  (d.map Prod.fst).insertionSort pyStrLe

/-- Python `d[k]` for an association list (first binding wins; a Python
dict has at most one binding per key). -/
def lookupVal {β : Type} (d : List (String × β)) (k : String) : Option β :=
  (d.find? (fun p => p.1 == k)).map Prod.snd

instance : DecidableRel (fun a b : String × String => pyStrLe a.1 b.1) :=
  fun a b => inferInstanceAs (Decidable (a.1.data ≤ b.1.data))

/-- `dedup_installers_id` (`main.py:565-588`;
`gog_installer_update_checker.py:581-604` differs only in iterating the id
set unsorted, which cannot change which path each id keeps): collect the
set of product ids (sorted distinct values), for each id walk the sorted
paths and keep the first path mapped to it, then emit the kept pairs
sorted by path.  The source's inner `while not found` loop always
succeeds, because every id is one of the mapping's values; accordingly the
model's `find?` never returns `none`. -/
def dedup_installers_id (d : List (String × String)) :
    List (String × String) :=
  let ids := ((d.map Prod.snd).insertionSort pyStrLe).dedup
  let aux := ids.filterMap (fun product_id =>
    ((sortedKeys d).find? (fun k => lookupVal d k == some product_id)).map
      (fun k => (k, product_id)))
  aux.insertionSort (fun a b => pyStrLe a.1 b.1)

theorem dedup_example :
    dedup_installers_id
      [("b/setup.exe", "7"), ("a/setup.exe", "7"), ("c/setup.exe", "9")] =
      [("a/setup.exe", "7"), ("c/setup.exe", "9")] := by decide

theorem insertionSort_eq_of_perm {l₁ l₂ : List String} (h : l₁.Perm l₂) :
    l₁.insertionSort pyStrLe = l₂.insertionSort pyStrLe := by
  apply List.eq_of_perm_of_sorted (r := pyStrLe)
  · exact ((List.perm_insertionSort pyStrLe l₁).trans h).trans
      (List.perm_insertionSort pyStrLe l₂).symm
  · exact List.sorted_insertionSort pyStrLe l₁
  · exact List.sorted_insertionSort pyStrLe l₂

/-- With distinct keys, `lookupVal` decides exactly the graph of the
dictionary. -/
theorem lookupVal_eq_some_iff {β : Type} {d : List (String × β)}
    (hnodup : (d.map Prod.fst).Nodup) {k : String} {v : β} :
    lookupVal d k = some v ↔ (k, v) ∈ d := by
  unfold lookupVal
  constructor
  · intro h
    rcases hfind : d.find? (fun p => p.1 == k) with _ | p
    · rw [hfind] at h
      cases h
    · rw [hfind] at h
      have hp : p ∈ d := List.mem_of_find?_eq_some hfind
      have hk : p.1 = k := by simpa using List.find?_some hfind
      have hv : p.2 = v := by simpa using h
      rw [← hk, ← hv]
      simpa using hp
  · intro h
    have hsome : (d.find? (fun p => p.1 == k)).isSome = true :=
      List.find?_isSome.mpr ⟨(k, v), h, by simp⟩
    rcases hfind : d.find? (fun p => p.1 == k) with _ | p
    · rw [hfind] at hsome
      cases hsome
    · have hp : p ∈ d := List.mem_of_find?_eq_some hfind
      have hk : p.1 = k := by simpa using List.find?_some hfind
      have hpd : (k, p.2) ∈ d := by
        rw [← hk, Prod.mk.eta]
        exact hp
      have hv : p.2 = v := assoc_key_unique hnodup hpd h
      rw [hfind]
      simp [hv]

/-- A found element of a sorted list is minimal among the elements
satisfying the predicate. -/
theorem find?_sorted_min {p : String → Bool} {ks : List String} {k : String}
    (hsorted : ks.Sorted pyStrLe) (hfind : ks.find? p = some k) :
    ∀ x ∈ ks, p x = true → pyStrLe k x := by
  intro x hx hpx
  obtain ⟨hpk, as, bs, hks, hprev⟩ := List.find?_eq_some.mp hfind
  subst hks
  rcases List.mem_append.mp hx with hxa | hxb
  · exact absurd hpx (by simpa using hprev x hxa)
  · rcases List.mem_cons.mp hxb with rfl | hxbs
    · exact le_refl x.data
    · have hsp := List.pairwise_append.mp hsorted
      exact (List.pairwise_cons.mp hsp.2.1).1 x hxbs

theorem lookupVal_perm_eq {β : Type} {d d2 : List (String × β)}
    (hnodup : (d.map Prod.fst).Nodup) (hperm : d.Perm d2) :
    lookupVal d = lookupVal d2 := by
  have hnodup2 : (d2.map Prod.fst).Nodup :=
    ((hperm.map Prod.fst).nodup_iff).mp hnodup
  funext k
  rcases h : lookupVal d k with _ | v
  · rcases h2 : lookupVal d2 k with _ | v2
    · rfl
    · have : (k, v2) ∈ d :=
        hperm.mem_iff.mpr ((lookupVal_eq_some_iff hnodup2).mp h2)
      rw [(lookupVal_eq_some_iff hnodup).mpr this] at h
      cases h
  · have : (k, v) ∈ d2 :=
      hperm.mem_iff.mp ((lookupVal_eq_some_iff hnodup).mp h)
    rw [(lookupVal_eq_some_iff hnodup2).mpr this]

/-- C8: for every path-to-productId mapping (a dictionary: distinct paths),
`dedup_installers_id` keeps, for each product id occurring among the
values, exactly one path — the lexicographically smallest path mapped to
that id — and its result is identical on every permutation of the input
(Python-dict insertion / iteration order cannot change it). -/
theorem dedup_min_path_deterministic
    (d d2 : List (String × String))
    (hnodup : (d.map Prod.fst).Nodup) (hperm : d.Perm d2) :
    (∀ pid, pid ∈ d.map Prod.snd →
      ∃ k, (k, pid) ∈ dedup_installers_id d ∧ (k, pid) ∈ d ∧
        (∀ q v, (q, v) ∈ d → v = pid → pyStrLe k q) ∧
        ∀ k2, (k2, pid) ∈ dedup_installers_id d → k2 = k) ∧
    dedup_installers_id d = dedup_installers_id d2 := by
  constructor
  · intro pid hpid
    obtain ⟨p0, hp0, hp0eq⟩ := List.mem_map.mp hpid
    have hq0d : (p0.1, pid) ∈ d := by
      rw [← hp0eq, Prod.mk.eta]
      exact hp0
    have hq0k : p0.1 ∈ sortedKeys d :=
      (List.perm_insertionSort pyStrLe _).mem_iff.mpr
        (List.mem_map_of_mem Prod.fst hp0)
    have hpred0 : (lookupVal d p0.1 == some pid) = true := by
      simp [(lookupVal_eq_some_iff hnodup).mpr hq0d]
    have hsome : ((sortedKeys d).find?
        (fun k => lookupVal d k == some pid)).isSome = true :=
      List.find?_isSome.mpr ⟨p0.1, hq0k, hpred0⟩
    rcases hfind : (sortedKeys d).find? (fun k => lookupVal d k == some pid)
      with _ | k
    · rw [hfind] at hsome
      cases hsome
    have hkd : (k, pid) ∈ d := by
      have := List.find?_some hfind
      exact (lookupVal_eq_some_iff hnodup).mp (by simpa using this)
    have hpid_ids : pid ∈ ((d.map Prod.snd).insertionSort pyStrLe).dedup :=
      List.mem_dedup.mpr ((List.perm_insertionSort pyStrLe _).mem_iff.mpr hpid)
    have hkaux : (k, pid) ∈
        (((d.map Prod.snd).insertionSort pyStrLe).dedup).filterMap
          (fun product_id =>
            ((sortedKeys d).find? (fun q => lookupVal d q == some product_id)).map
              (fun q => (q, product_id))) :=
      List.mem_filterMap.mpr ⟨pid, hpid_ids, by rw [hfind]; rfl⟩
    refine ⟨k, ?_, hkd, ?_, ?_⟩
    · show (k, pid) ∈ dedup_installers_id d
      simp only [dedup_installers_id]
      exact (List.perm_insertionSort _ _).mem_iff.mpr hkaux
    · intro q v hqv hveq
      subst hveq
      have hqk : q ∈ sortedKeys d :=
        (List.perm_insertionSort pyStrLe _).mem_iff.mpr
          (List.mem_map_of_mem Prod.fst hqv)
      have hpredq : (lookupVal d q == some v) = true := by
        simp [(lookupVal_eq_some_iff hnodup).mpr hqv]
      exact find?_sorted_min (List.sorted_insertionSort pyStrLe _) hfind q hqk
        hpredq
    · intro k2 hk2
      simp only [dedup_installers_id] at hk2
      have hk2aux := (List.perm_insertionSort
        (fun a b : String × String => pyStrLe a.1 b.1) _).mem_iff.mp hk2
      obtain ⟨pid', _, hmap⟩ := List.mem_filterMap.mp hk2aux
      rcases hfind' : (sortedKeys d).find?
          (fun q => lookupVal d q == some pid') with _ | k'
      · rw [hfind'] at hmap
        cases hmap
      · rw [hfind'] at hmap
        have hk' : k' = k2 ∧ pid' = pid := by
          constructor <;> [exact congrArg Prod.fst (Option.some.inj hmap);
            exact congrArg Prod.snd (Option.some.inj hmap)]
        rw [hk'.2] at hfind'
        rw [hfind] at hfind'
        rw [← hk'.1, Option.some.inj hfind']
  · have hkeys : sortedKeys d = sortedKeys d2 := by
      unfold sortedKeys
      exact insertionSort_eq_of_perm (hperm.map Prod.fst)
    have hvals : (d.map Prod.snd).insertionSort pyStrLe =
        (d2.map Prod.snd).insertionSort pyStrLe :=
      insertionSort_eq_of_perm (hperm.map Prod.snd)
    have hlook : lookupVal d = lookupVal d2 := lookupVal_perm_eq hnodup hperm
    simp only [dedup_installers_id]
    rw [hkeys, hvals, hlook]

/-- Witness for C8: the two-element mapping in both insertion orders yields
the same deduplication. -/
theorem dedup_min_path_deterministic_witness :
    dedup_installers_id [("b/setup.exe", "7"), ("a/setup.exe", "7")] =
      dedup_installers_id [("a/setup.exe", "7"), ("b/setup.exe", "7")] :=
  (dedup_min_path_deterministic [("b/setup.exe", "7"), ("a/setup.exe", "7")]
    [("a/setup.exe", "7"), ("b/setup.exe", "7")] (by decide)
    (List.Perm.swap ("a/setup.exe", "7") ("b/setup.exe", "7") [])).2

/-- Python dict assignment `m[name] = k`: replace the value at an existing
key (keeping its position), else append the new binding. -/
def insertOverwrite (m : List (String × String)) (name k : String) :
    List (String × String) :=
  if m.any (fun p => p.1 == name) then
    m.map (fun p => if p.1 == name then (p.1, k) else p)
  else
    m ++ [(name, k)]

/-- `sorted(local_info.keys())` for the record dictionary. -/
def sortedRecKeys (li : List (String × LocalInstallerInfo)) : List String :=
  (li.map Prod.fst).insertionSort pyStrLe

/-- One iteration of the first loop of `sort_local_info`:
`installer_name_map[local_info[installer]["product_name"]] = installer`.
The `none` arm is unreachable, every walked key being a key of the
dictionary. -/
def nameMapStep (li : List (String × LocalInstallerInfo))
    (m : List (String × String)) (installer : String) :
    List (String × String) :=
  match lookupVal li installer with
  | some info => insertOverwrite m info.product_name installer
  | none => m

/-- The `installer_name_map` of `sort_local_info` after its first loop:
product name -> installer path, later paths (in sorted path order)
overwriting earlier ones that carry the same product name. -/
def buildNameMap (li : List (String × LocalInstallerInfo)) :
    List (String × String) :=
  (sortedRecKeys li).foldl (nameMapStep li) []

/-- `sort_local_info` (`main.py:1105-1125`, identical in
`gog_installer_update_checker.py:1145-1168`): build `installer_name_map`
keyed by product name over the path-sorted records, then emit one entry
per product name in name-sorted order.  The empty arms are unreachable:
every name walked is a key of the name map and every looked-up installer a
key of `local_info`. -/
def sort_local_info (li : List (String × LocalInstallerInfo)) :
    List (String × LocalInstallerInfo) :=
  let installer_name_map := buildNameMap li
  ((installer_name_map.map Prod.fst).insertionSort pyStrLe).foldl
    (fun acc prod_name => acc ++
      (match lookupVal installer_name_map prod_name with
       | some installer =>
         match lookupVal li installer with
         | some info => [(installer, info)]
         | none => []
       | none => []))
    []

theorem bool_eq_false {b : Bool} (h : ¬b = true) : b = false := by
  cases b
  · rfl
  · exact absurd rfl h

theorem lookupVal_insertOverwrite_self (m : List (String × String))
    (name k : String) :
    lookupVal (insertOverwrite m name k) name = some k := by
  induction m with
  | nil => simp [insertOverwrite, lookupVal]
  | cons p t ih =>
    by_cases hp : (p.1 == name) = true
    · have hany : (p :: t).any (fun q => q.1 == name) = true := by
        simp [List.any_cons, hp]
      simp only [insertOverwrite, hany, if_true, List.map_cons, hp, if_pos]
      simp [lookupVal, List.find?_cons, hp]
    · have hanyc : (p :: t).any (fun q => q.1 == name) = t.any (fun q => q.1 == name) := by
        simp [List.any_cons, hp]
      by_cases ht : t.any (fun q => q.1 == name) = true
      · simp only [insertOverwrite, hanyc, ht, if_true, List.map_cons, hp,
          if_neg, ite_false]
        have ihx := ih
        simp only [insertOverwrite, ht, if_true] at ihx
        simpa [lookupVal, List.find?_cons, hp] using ihx
      · have htf : t.any (fun q => q.1 == name) = false := bool_eq_false ht
        simp only [insertOverwrite, hanyc, htf, Bool.false_eq_true, if_false,
          List.cons_append]
        have ihx := ih
        simp only [insertOverwrite, htf, Bool.false_eq_true, if_false] at ihx
        simpa [lookupVal, List.find?_cons, hp] using ihx

theorem lookupVal_insertOverwrite_other (m : List (String × String))
    {name n : String} (k : String) (hne : n ≠ name) :
    lookupVal (insertOverwrite m name k) n = lookupVal m n := by
  induction m with
  | nil => simp [insertOverwrite, lookupVal, List.find?_cons, Ne.symm hne]
  | cons p t ih =>
    by_cases hp : (p.1 == name) = true
    · have hany : (p :: t).any (fun q => q.1 == name) = true := by
        simp [List.any_cons, hp]
      have hpn : (p.1 == n) = false := by
        have : p.1 = name := by simpa using hp
        simp [this, Ne.symm hne]
      simp only [insertOverwrite, hany, if_true, List.map_cons, hp, if_pos]
      by_cases htany : t.any (fun q => q.1 == name) = true
      · have ihx := ih
        simp only [insertOverwrite, htany, if_true] at ihx
        simpa [lookupVal, List.find?_cons, hpn] using ihx
      · have htf : t.any (fun q => q.1 == name) = false := bool_eq_false htany
        have hmap : t.map (fun q => if q.1 == name then (q.1, k) else q) = t := by
          have hall : ∀ q ∈ t, (q.1 == name) = false := by
            intro q hq
            rcases hb : (q.1 == name) with _ | _
            · rfl
            · exfalso
              have hx : t.any (fun q => q.1 == name) = true :=
                List.any_eq_true.mpr ⟨q, hq, hb⟩
              rw [htf] at hx
              cases hx
          calc t.map (fun q => if q.1 == name then (q.1, k) else q)
              = t.map id := List.map_congr_left (fun q hq => by simp [hall q hq])
            _ = t := List.map_id t
        rw [hmap]
        simp [lookupVal, List.find?_cons, hpn]
    · have hanyc : (p :: t).any (fun q => q.1 == name) = t.any (fun q => q.1 == name) := by
        simp [List.any_cons, hp]
      by_cases ht : t.any (fun q => q.1 == name) = true
      · simp only [insertOverwrite, hanyc, ht, if_true, List.map_cons, hp,
          if_neg, ite_false]
        have ihx := ih
        simp only [insertOverwrite, ht, if_true] at ihx
        by_cases hpn : (p.1 == n) = true
        · simp [lookupVal, List.find?_cons, hpn]
        · simp only [lookupVal, List.find?_cons] at ihx ⊢
          simp only [hpn, Bool.false_eq_true, if_false]
          simpa [lookupVal] using ihx
      · have htf : t.any (fun q => q.1 == name) = false := bool_eq_false ht
        simp only [insertOverwrite, hanyc, htf, Bool.false_eq_true, if_false,
          List.cons_append]
        have ihx := ih
        simp only [insertOverwrite, htf, Bool.false_eq_true, if_false] at ihx
        by_cases hpn : (p.1 == n) = true
        · simp [lookupVal, List.find?_cons, hpn]
        · simp only [lookupVal, List.find?_cons] at ihx ⊢
          simp only [hpn, Bool.false_eq_true, if_false]
          simpa [lookupVal] using ihx

/-- Last-write-wins characterisation of the first loop of
`sort_local_info`: after folding `installer_name_map[name] = installer`
over `ks`, a name `n` maps to the last key of `ks` whose record carries
the name `n`, and otherwise to whatever the accumulator already held. -/
theorem nameMap_fold_lookup (li : List (String × LocalInstallerInfo))
    (ks : List String) (m : List (String × String)) (n : String) :
    lookupVal (ks.foldl (nameMapStep li) m) n =
      match (ks.filter (fun k =>
          (lookupVal li k).map LocalInstallerInfo.product_name ==
            some n)).getLast? with
      | some k => some k
      | none => lookupVal m n := by
  induction ks generalizing m with
  | nil => simp
  | cons k ks ih =>
    simp only [List.foldl_cons]
    rw [ih]
    rcases hrec : lookupVal li k with _ | info
    · have hpred : ((lookupVal li k).map LocalInstallerInfo.product_name ==
          some n) = false := by
        simp [hrec]
      simp [nameMapStep, hrec, List.filter_cons, hpred]
    · by_cases hn : info.product_name = n
      · subst hn
        simp only [nameMapStep, hrec]
        rcases hfl : ks.filter (fun q =>
            (lookupVal li q).map LocalInstallerInfo.product_name ==
              some info.product_name) with _ | ⟨k2, l2⟩
        · simp [List.filter_cons, hrec, hfl, lookupVal_insertOverwrite_self]
        · rcases hgl : (k2 :: l2).getLast? with _ | g
          · rw [List.getLast?_eq_none_iff] at hgl
            cases hgl
          · simp [List.filter_cons, hrec, hfl, List.getLast?_cons_cons, hgl]
      · have hpred : ((lookupVal li k).map LocalInstallerInfo.product_name ==
            some n) = false := by
          simp [hrec, hn]
        simp only [nameMapStep, hrec]
        rcases hfl : ks.filter (fun q =>
            (lookupVal li q).map LocalInstallerInfo.product_name == some n)
          with _ | ⟨k2, l2⟩
        · simp [List.filter_cons, hpred, hfl,
            lookupVal_insertOverwrite_other m k (fun h => hn h.symm)]
        · rcases hgl : (k2 :: l2).getLast? with _ | g
          · rw [List.getLast?_eq_none_iff] at hgl
            cases hgl
          · simp [List.filter_cons, hpred, hfl, hgl]

/-- In a sorted duplicate-free list, a member that bounds every element
from above is the last element. -/
theorem getLast?_of_sorted_ub {l : List String}
    (hs : l.Sorted pyStrLe) (hnd : l.Nodup) {x : String} (hx : x ∈ l)
    (hub : ∀ y ∈ l, pyStrLe y x) : l.getLast? = some x := by
  induction l with
  | nil => cases hx
  | cons a t ih =>
    cases t with
    | nil =>
      rcases List.mem_cons.mp hx with rfl | h
      · rfl
      · cases h
    | cons b t' =>
      rw [List.getLast?_cons_cons]
      rcases List.mem_cons.mp hx with rfl | hxt
      · exfalso
        have hab : pyStrLe x b :=
          (List.pairwise_cons.mp hs).1 b (List.mem_cons_self b t')
        have hba : pyStrLe b x :=
          hub b (List.mem_cons_of_mem x (List.mem_cons_self b t'))
        have hbx : b = x := antisymm hba hab
        exact (List.nodup_cons.mp hnd).1 (hbx ▸ List.mem_cons_self b t')
      · exact ih (List.pairwise_cons.mp hs).2 (List.nodup_cons.mp hnd).2 hxt
          (fun y hy => hub y (List.mem_cons_of_mem a hy))

theorem mem_foldl_append {α β : Type} (f : α → List β) (ks : List α)
    (acc : List β) (x : β) :
    x ∈ ks.foldl (fun a n => a ++ f n) acc ↔ x ∈ acc ∨ ∃ n ∈ ks, x ∈ f n := by
  induction ks generalizing acc with
  | nil => simp
  | cons k ks ih =>
    simp only [List.foldl_cons]
    rw [ih, List.exists_mem_cons_iff]
    simp [List.mem_append, or_assoc]

theorem mem_keys_of_lookupVal_some {β : Type} {d : List (String × β)}
    {k : String} {v : β} (h : lookupVal d k = some v) :
    k ∈ d.map Prod.fst := by
  unfold lookupVal at h
  rcases hfind : d.find? (fun p => p.1 == k) with _ | p
  · rw [hfind] at h
    cases h
  · have hp : p ∈ d := List.mem_of_find?_eq_some hfind
    have hk : p.1 = k := by simpa using List.find?_some hfind
    exact hk ▸ List.mem_map_of_mem Prod.fst hp

/-- C10: `sort_local_info` keys records by product name while sorting:
whenever two distinct installer records carry the same product name, only
the record whose installer path sorts last (among the records carrying
that name) survives into the result — the other is silently dropped from
comparison and from the report. -/
theorem sort_local_info_drops_same_name
    (li : List (String × LocalInstallerInfo))
    (hnodup : (li.map Prod.fst).Nodup)
    (p1 p2 : String) (r1 r2 : LocalInstallerInfo)
    (h1 : (p1, r1) ∈ li) (h2 : (p2, r2) ∈ li) (hne : p1 ≠ p2)
    (hname : r1.product_name = r2.product_name)
    (hlast : ∀ q s, (q, s) ∈ li → s.product_name = r2.product_name →
      pyStrLe q p2) :
    (p2, r2) ∈ sort_local_info li ∧ ∀ r, (p1, r) ∉ sort_local_info li := by
  have hlook1 : lookupVal li p1 = some r1 :=
    (lookupVal_eq_some_iff hnodup).mpr h1
  have hlook2 : lookupVal li p2 = some r2 :=
    (lookupVal_eq_some_iff hnodup).mpr h2
  have hsorted : (sortedRecKeys li).Sorted pyStrLe :=
    List.sorted_insertionSort pyStrLe _
  have hndk : (sortedRecKeys li).Nodup :=
    ((List.perm_insertionSort pyStrLe _).nodup_iff).mpr hnodup
  have hfsorted : ((sortedRecKeys li).filter (fun q =>
      (lookupVal li q).map LocalInstallerInfo.product_name ==
        some r2.product_name)).Sorted pyStrLe :=
    List.Pairwise.filter _ hsorted
  have hfnd : ((sortedRecKeys li).filter (fun q =>
      (lookupVal li q).map LocalInstallerInfo.product_name ==
        some r2.product_name)).Nodup :=
    List.Nodup.filter _ hndk
  have hp2f : p2 ∈ (sortedRecKeys li).filter (fun q =>
      (lookupVal li q).map LocalInstallerInfo.product_name ==
        some r2.product_name) := by
    rw [List.mem_filter]
    refine ⟨?_, by simp [hlook2]⟩
    exact (List.perm_insertionSort pyStrLe _).mem_iff.mpr
      (List.mem_map_of_mem Prod.fst h2)
  have hub : ∀ y ∈ (sortedRecKeys li).filter (fun q =>
      (lookupVal li q).map LocalInstallerInfo.product_name ==
        some r2.product_name), pyStrLe y p2 := by
    intro y hy
    rw [List.mem_filter] at hy
    have hyk : y ∈ li.map Prod.fst :=
      (List.perm_insertionSort pyStrLe _).mem_iff.mp hy.1
    obtain ⟨p0, hp0, hp0eq⟩ := List.mem_map.mp hyk
    have hylook : lookupVal li y = some p0.2 := by
      apply (lookupVal_eq_some_iff hnodup).mpr
      rw [← hp0eq, Prod.mk.eta]
      exact hp0
    have hyname : p0.2.product_name = r2.product_name := by
      have := hy.2
      rw [hylook] at this
      simpa using this
    exact hlast y p0.2 (by rw [← hp0eq, Prod.mk.eta]; exact hp0) hyname
  have hglast : ((sortedRecKeys li).filter (fun q =>
      (lookupVal li q).map LocalInstallerInfo.product_name ==
        some r2.product_name)).getLast? = some p2 :=
    getLast?_of_sorted_ub hfsorted hfnd hp2f hub
  have hnm : lookupVal (buildNameMap li) r2.product_name = some p2 := by
    unfold buildNameMap
    rw [nameMap_fold_lookup, hglast]
  constructor
  · show (p2, r2) ∈ sort_local_info li
    simp only [sort_local_info]
    rw [mem_foldl_append]
    refine Or.inr ⟨r2.product_name, ?_, ?_⟩
    · exact (List.perm_insertionSort pyStrLe _).mem_iff.mpr
        (mem_keys_of_lookupVal_some hnm)
    · simp [hnm, hlook2]
  · intro r hmem
    simp only [sort_local_info] at hmem
    rw [mem_foldl_append] at hmem
    rcases hmem with hmem | ⟨n, -, hmem⟩
    · cases hmem
    rcases hnml : lookupVal (buildNameMap li) n with _ | installer
    · simp [hnml] at hmem
    simp only [hnml] at hmem
    rcases hrecl : lookupVal li installer with _ | info
    · simp [hrecl] at hmem
    simp only [hrecl] at hmem
    have hpair := List.mem_singleton.mp hmem
    have hinst : installer = p1 := congrArg Prod.fst hpair |>.symm
    subst hinst
    have hnmfl := hnml
    rw [show buildNameMap li = (sortedRecKeys li).foldl (nameMapStep li) []
      from rfl, nameMap_fold_lookup] at hnmfl
    rcases hgl : ((sortedRecKeys li).filter (fun q =>
        (lookupVal li q).map LocalInstallerInfo.product_name ==
          some n)).getLast? with _ | g
    · rw [hgl] at hnmfl
      simp [lookupVal] at hnmfl
    rw [hgl] at hnmfl
    have hg : g = installer := by
      simpa using hnmfl
    subst hg
    have hmemf := List.mem_of_mem_getLast? (Option.mem_def.mpr hgl)
    rw [List.mem_filter] at hmemf
    have hnamen : r1.product_name = n := by
      have := hmemf.2
      rw [hlook1] at this
      simpa using this
    have hn2 : n = r2.product_name := by
      rw [← hnamen, hname]
    rw [hn2] at hnml
    rw [hnm] at hnml
    exact hne (Option.some.inj hnml).symm

/-- Witness for C10: with `b/x.exe` and `a/x.exe` both named `"Game"`, only
the record under `b/x.exe` (the path sorting last) survives. -/
theorem sort_local_info_drops_same_name_witness :
    ("b/x.exe", (⟨"7", "Game", some "1.0", none, false⟩ : LocalInstallerInfo)) ∈
      sort_local_info
        [("a/x.exe", ⟨"5", "Game", some "0.9", none, false⟩),
         ("b/x.exe", ⟨"7", "Game", some "1.0", none, false⟩)] ∧
    ∀ r, ("a/x.exe", r) ∉ sort_local_info
        [("a/x.exe", ⟨"5", "Game", some "0.9", none, false⟩),
         ("b/x.exe", ⟨"7", "Game", some "1.0", none, false⟩)] :=
  sort_local_info_drops_same_name
    [("a/x.exe", ⟨"5", "Game", some "0.9", none, false⟩),
     ("b/x.exe", ⟨"7", "Game", some "1.0", none, false⟩)]
    (by decide) "a/x.exe" "b/x.exe" ⟨"5", "Game", some "0.9", none, false⟩
    ⟨"7", "Game", some "1.0", none, false⟩ (by decide) (by decide)
    (by decide) rfl
    (by
      intro q s hqs hn
      rcases List.mem_cons.mp hqs with h | h
      · rw [show q = "a/x.exe" from congrArg Prod.fst h]
        decide
      · rcases List.mem_cons.mp h with h2 | h2
        · rw [show q = "b/x.exe" from congrArg Prod.fst h2]
          decide
        · cases h2)
